import Mathlib

/-!
Shallow embedding of `src/validator.ts` (qianbin/validator-ts), the rule /
transformer / combinator validation engine, together with theorems checking
the natural-language specification against it.

Modelling conventions:
* JavaScript runtime values are modelled by the inductive `Value`
  (null, undefined, booleans, integers, strings, objects as ordered
  association lists, arrays as lists).
* The module-global `scopeStack` is modelled by explicit state passing: every
  stateful function takes the current stack (a `List Seg`, pushes happen at
  the end, as with JavaScript `Array.push`) and returns the resulting stack
  next to its `Except` result.  A `try/finally` pop is modelled by applying
  `List.dropLast` to whatever stack the protected body returned, on both the
  success and the error branch, exactly as the source does.
* A thrown `Validator.ErrorInvalid` is modelled by `Except.error` carrying the
  structure `ErrorInvalid` that holds the message string.
-/

namespace ValidatorTs

/-- JavaScript runtime values, as far as the validator engine observes them. -/
inductive Value where
  | vNull : Value
  | vUndefined : Value
  | vBool : Bool → Value
  | vNum : Int → Value
  | vStr : String → Value
  | vObj : List (String × Value) → Value
  | vArr : List Value → Value

/-- A path segment on the scope stack: `string | number` in the source. -/
inductive Seg where
  | str : String → Seg
  | idx : Nat → Seg
deriving DecidableEq

/-- The error thrown by `raiseError` (`Validator.ErrorInvalid` in the source);
only the message is observable for the properties at hand. -/
structure ErrorInvalid where
  message : String
deriving DecidableEq

/-- The `v instanceof Object` test: objects and arrays are `Object`s,
primitives (null, undefined, booleans, numbers, strings) are not. -/
def instanceofObject : Value → Bool
  | Value.vObj _ => true
  | Value.vArr _ => true
  | _ => false

/-- The `v instanceof Array` test. -/
def instanceofArray : Value → Bool
  | Value.vArr _ => true
  | _ => false

/-- Association-list lookup over the fields of an object value. -/
def lookupField : List (String × Value) → String → Option Value
  | [], _ => none
  | (k, v) :: rest, key => if k = key then some v else lookupField rest key

/-- Property read `obj[key]`: on objects an own-field lookup, on arrays a
numeric-index read, `undefined` when absent; primitives have no
own properties the engine reads. -/
def getProp (v : Value) (key : String) : Value :=
  match v with
  | Value.vObj fields =>
    match lookupField fields key with
    | some w => w
    | none => Value.vUndefined
  | Value.vArr es =>
    match key.toNat? with
    | some i => es.getD i Value.vUndefined
    | none => Value.vUndefined
  | _ => Value.vUndefined

/-- The keys produced by `for key in obj`: field names of an object in
insertion order, index strings for an array, nothing for primitives. -/
def ownKeys : Value → List String
  | Value.vObj fields => fields.map Prod.fst
  | Value.vArr es => (List.range es.length).map toString
  | _ => []

/-- Rendering of one path segment at position `i`, as in `raiseError`:
a numeric segment renders as `[n]` regardless of position, a string segment
gets a leading dot unless it is the first segment. -/
def segString (i : Nat) (v : Seg) : String :=
  match v with
  | Seg.idx n => "[" ++ toString n ++ "]"
  | Seg.str s => if i ≠ 0 then "." ++ s else s

/-- The `scopeStack.map((v, i) => ...).join('')` loop of `raiseError`,
with the running position threaded through. -/
def renderSegsFrom : Nat → List Seg → String
  | _, [] => ""
  | i, v :: rest => segString i v ++ renderSegsFrom (i + 1) rest

/-- The full rendered path of a scope stack. -/
def renderScope (st : List Seg) : String :=
  renderSegsFrom 0 st

/-- The JavaScript defaulting `prefix = prefix || "requires"`: an absent or
empty (falsy) prefix becomes `"requires"`. -/
def orRequires : Option String → String
  | some p => if p = "" then "requires" else p
  | none => "requires"

/-- The error built by `raiseError(desc, prefix)` when the scope stack holds
`st`: message `"<path>: <prefix> <desc>"`. -/
def raiseError (st : List Seg) (desc : String) (pfx : Option String) : ErrorInvalid :=
  ⟨renderScope st ++ ": " ++ orRequires pfx ++ " " ++ desc⟩

/-- Wrap a string in single quotes (character 39), as the template literal
of the unknown-property description does. -/
def quoted (s : String) : String :=
  String.singleton (Char.ofNat 39) ++ s ++ String.singleton (Char.ofNat 39)

/-- A sanitizer pair attached to a rule (`Validator.Sanitizer`). -/
structure Sanitizer where
  before : Option (Value → Value)
  after : Option (Value → Value)

/-- A rule (`Validator.Rule`): description at index 0, predicate at index 1,
optional sanitizer at index 2.  Field names follow the locals of
`performRule` in the source (`desc`, `vfunc`, `sfunc`). -/
structure Rule where
  desc : String
  vfunc : Value → Bool
  sfunc : Option Sanitizer

/-- The `if (sfunc && sfunc.before) value = sfunc.before(value)` step. -/
def sanBefore (rule : Rule) (value : Value) : Value :=
  match rule.sfunc with
  | some s =>
    match s.before with
    | some f => f value
    | none => value
  | none => value

/-- The `if (sfunc && sfunc.after) value = sfunc.after(value)` step. -/
def sanAfter (rule : Rule) (value : Value) : Value :=
  match rule.sfunc with
  | some s =>
    match s.after with
    | some f => f value
    | none => value
  | none => value

/-- `performRule(value, rule, transformer?)`: apply the before-sanitizer,
test the predicate (raising with the default prefix on failure), apply the
transform callback when supplied, apply the after-sanitizer, return the
final value.  The transform callback is stateful, as in `Validator.run`
where it is the transformer processing function. -/
def performRule (value : Value) (rule : Rule)
    (transformer : Option (Value → List Seg → Except ErrorInvalid Value × List Seg))
    (st : List Seg) : Except ErrorInvalid Value × List Seg :=
  let value := sanBefore rule value
  if rule.vfunc value then
    match transformer with
    | some f =>
      match f value st with
      | (Except.ok v2, st2) => (Except.ok (sanAfter rule v2), st2)
      | (Except.error e, st2) => (Except.error e, st2)
    | none => (Except.ok (sanAfter rule value), st)
  else
    (Except.error (raiseError st rule.desc none), st)

mutual

/-- `Validator.PropertyRule`: a plain rule, a nested validator, or a bare
transform function (applied with no predicate check). -/
inductive PropertyRule where
  | rule : Rule → PropertyRule
  | validator : Validator → PropertyRule
  | transform : (Value → Value) → PropertyRule

/-- The three transformer strategies of the source: `ObjectTransformer`
(carrying its `propRules` map as an ordered key/rule list),
`IndexedObjectTransformer` and `ArrayTransformer` (each carrying their single
`childRule`). -/
inductive Transformer where
  | objectT : List (String × PropertyRule) → Transformer
  | indexedObjectT : PropertyRule → Transformer
  | arrayT : PropertyRule → Transformer

/-- The `Validator` class: primary rule, optional transformer, extra rules. -/
inductive Validator where
  | mk : Rule → Option Transformer → List Rule → Validator

end

/-- The `rule` field of a `Validator`. -/
def Validator.rule : Validator → Rule
  | Validator.mk r _ _ => r

/-- The `transformer` field of a `Validator`. -/
def Validator.transformer : Validator → Option Transformer
  | Validator.mk _ t _ => t

/-- The `extraRules` field of a `Validator`. -/
def Validator.extraRules : Validator → List Rule
  | Validator.mk _ _ es => es

/-- Lookup `propRules[key]` in an object transformer rule map. -/
def lookupPropRule : List (String × PropertyRule) → String → Option PropertyRule
  | [], _ => none
  | (k, r) :: rest, key => if k = key then some r else lookupPropRule rest key

/-- The first pass of `ObjectTransformer.process`: scan the input keys in
order and report the first one with no entry in the rule map (the loop
raises at the first such key). -/
def firstUnknown (keys : List String) (propRules : List (String × PropertyRule)) :
    Option String :=
  match keys with
  | [] => none
  | k :: rest =>
    if (lookupPropRule propRules k).isNone then some k
    else firstUnknown rest propRules

/-- The `extraRules.forEach(r => value = performRule(value, r))` loop of
`Validator.run`: each extra rule runs with no transform callback, in order,
and a thrown error aborts the loop. -/
def runExtras (extraRules : List Rule) (value : Value) (st : List Seg) :
    Except ErrorInvalid Value × List Seg :=
  match extraRules with
  | [] => (Except.ok value, st)
  | r :: rest =>
    match performRule value r none st with
    | (Except.ok v1, st2) => runExtras rest v1 st2
    | (Except.error e, st2) => (Except.error e, st2)

mutual

/-- `Validator.run(value, scope?)`: push the scope label when given, run the
try-body, and pop on every exit path (the `finally`). -/
def runValidator (v : Validator) (value : Value) (scope : Option String)
    (st : List Seg) : Except ErrorInvalid Value × List Seg :=
  match v with
  | Validator.mk rule transformer extraRules =>
    match scope with
    | some s =>
      let r := runTryBody rule transformer extraRules value (st ++ [Seg.str s])
      (r.1, r.2.dropLast)
    | none => runTryBody rule transformer extraRules value st
termination_by (sizeOf v, 1)
decreasing_by
  all_goals simp_wf
  all_goals apply Prod.Lex.left
  all_goals omega

/-- The try-block of `Validator.run`: the primary rule with the transformer
processing function as transform callback (identity when there is no
transformer), then the extra rules in order.  The steps of `performRule` are
unfolded here so that the recursive call to `processTransformer` is a plain
first-order call; the lemma `runTryBody_eq_performRule` below re-folds them
into the exact `performRule(value, this.rule, v => ...)` call of the
source. -/
def runTryBody (rule : Rule) (transformer : Option Transformer)
    (extraRules : List Rule) (value : Value) (st : List Seg) :
    Except ErrorInvalid Value × List Seg :=
  let v1 := sanBefore rule value
  if rule.vfunc v1 then
    match (match transformer with
           | some t => processTransformer t v1 st
           | none => (Except.ok v1, st)) with
    | (Except.ok v2, st2) => runExtras extraRules (sanAfter rule v2) st2
    | (Except.error e, st2) => (Except.error e, st2)
  else (Except.error (raiseError st rule.desc none), st)
termination_by (sizeOf transformer, 0)
decreasing_by
  all_goals simp_wf
  all_goals apply Prod.Lex.left
  all_goals omega

/-- `process` of the three transformer classes.  Non-matching input (not an
`Object`, or not an `Array` for the array transformer) is returned
unchanged.  The object transformer first scans the input keys for one
missing from its rule map and raises `unknown property` there (with the key
quoted in the description and nothing pushed on the stack), then rebuilds a
fresh object over the rule-map keys. -/
def processTransformer (t : Transformer) (value : Value) (st : List Seg) :
    Except ErrorInvalid Value × List Seg :=
  match t with
  | Transformer.objectT propRules =>
    if instanceofObject value then
      match firstUnknown (ownKeys value) propRules with
      | some k =>
        (Except.error (raiseError st (quoted k) (some "unknown property")), st)
      | none =>
        match processFields propRules value st with
        | (Except.ok fields, st2) => (Except.ok (Value.vObj fields), st2)
        | (Except.error e, st2) => (Except.error e, st2)
    else (Except.ok value, st)
  | Transformer.indexedObjectT childRule =>
    if instanceofObject value then
      match processKeys (ownKeys value) childRule value st with
      | (Except.ok fields, st2) => (Except.ok (Value.vObj fields), st2)
      | (Except.error e, st2) => (Except.error e, st2)
    else (Except.ok value, st)
  | Transformer.arrayT childRule =>
    match value with
    | Value.vArr es =>
      match processElems childRule es 0 st with
      | (Except.ok es2, st2) => (Except.ok (Value.vArr es2), st2)
      | (Except.error e, st2) => (Except.error e, st2)
    | _ => (Except.ok value, st)
termination_by (sizeOf t, 0)
decreasing_by
  all_goals simp_wf
  all_goals apply Prod.Lex.left
  all_goals omega

/-- `performPropRule(prop, propRule)`: dispatch on the rule variant — a
nested validator runs with no scope label, a bare function is applied
directly, a rule goes through `performRule` with no transform callback. -/
def performPropRule (value : Value) (pr : PropertyRule) (st : List Seg) :
    Except ErrorInvalid Value × List Seg :=
  match pr with
  | PropertyRule.validator v => runValidator v value none st
  | PropertyRule.transform f => (Except.ok (f value), st)
  | PropertyRule.rule r => performRule value r none st
termination_by (sizeOf pr, 1)
decreasing_by
  all_goals simp_wf
  all_goals apply Prod.Lex.left
  all_goals omega

/-- The second pass of `ObjectTransformer.process`: for each declared key in
rule-map order, push the key, run the property rule on `obj[key]`, pop (the
`finally`), and record the result in the fresh copy. -/
def processFields (propRules : List (String × PropertyRule)) (value : Value)
    (st : List Seg) : Except ErrorInvalid (List (String × Value)) × List Seg :=
  match propRules with
  | [] => (Except.ok [], st)
  | (key, pr) :: rest =>
    match performPropRule (getProp value key) pr (st ++ [Seg.str key]) with
    | (Except.ok v1, st2) =>
      match processFields rest value st2.dropLast with
      | (Except.ok fs, st3) => (Except.ok ((key, v1) :: fs), st3)
      | (Except.error e, st3) => (Except.error e, st3)
    | (Except.error e, st2) => (Except.error e, st2.dropLast)
termination_by (sizeOf propRules, 0)
decreasing_by
  all_goals simp_wf
  all_goals apply Prod.Lex.left
  all_goals omega

/-- The loop of `IndexedObjectTransformer.process`: for each input key, push
the key, run the shared child rule on `obj[key]`, pop, and record the result
in the fresh copy. -/
def processKeys (keys : List String) (childRule : PropertyRule) (value : Value)
    (st : List Seg) : Except ErrorInvalid (List (String × Value)) × List Seg :=
  match keys with
  | [] => (Except.ok [], st)
  | key :: rest =>
    match performPropRule (getProp value key) childRule (st ++ [Seg.str key]) with
    | (Except.ok v1, st2) =>
      match processKeys rest childRule value st2.dropLast with
      | (Except.ok fs, st3) => (Except.ok ((key, v1) :: fs), st3)
      | (Except.error e, st3) => (Except.error e, st3)
    | (Except.error e, st2) => (Except.error e, st2.dropLast)
termination_by (sizeOf childRule, keys.length + 1)
decreasing_by
  all_goals simp_wf
  all_goals apply Prod.Lex.right
  all_goals omega

/-- The `array.forEach((e, i) => ...)` loop of `ArrayTransformer.process`:
push the index, run the shared child rule on the element, pop, and append
the result in order. -/
def processElems (childRule : PropertyRule) (es : List Value) (i : Nat)
    (st : List Seg) : Except ErrorInvalid (List Value) × List Seg :=
  match es with
  | [] => (Except.ok [], st)
  | e :: rest =>
    match performPropRule e childRule (st ++ [Seg.idx i]) with
    | (Except.ok v1, st2) =>
      match processElems childRule rest (i + 1) st2.dropLast with
      | (Except.ok vs, st3) => (Except.ok (v1 :: vs), st3)
      | (Except.error e2, st3) => (Except.error e2, st3)
    | (Except.error e2, st2) => (Except.error e2, st2.dropLast)
termination_by (sizeOf childRule, es.length + 1)
decreasing_by
  all_goals simp_wf
  all_goals apply Prod.Lex.right
  all_goals omega

end

/-- `Validator.regular(rule)`: leaf validator, no transformer, no extras. -/
def Validator.regular (rule : Rule) : Validator :=
  Validator.mk rule none []

/-- `Validator.object(propRules)`: primary rule `["object", v => v instanceof
Object]`, strict object transformer bound to the rule map. -/
def Validator.object (propRules : List (String × PropertyRule)) : Validator :=
  Validator.mk ⟨"object", instanceofObject, none⟩ (some (Transformer.objectT propRules)) []

/-- `forArray()`: primary rule `["array", v => v instanceof Array]`, array
transformer whose child rule is this validator. -/
def Validator.forArray (v : Validator) : Validator :=
  Validator.mk ⟨"array", instanceofArray, none⟩
    (some (Transformer.arrayT (PropertyRule.validator v))) []

/-- `forIndexedObject()`: primary rule `["object", v => v instanceof
Object]`, indexed-object transformer whose child rule is this validator. -/
def Validator.forIndexedObject (v : Validator) : Validator :=
  Validator.mk ⟨"object", instanceofObject, none⟩
    (some (Transformer.indexedObjectT (PropertyRule.validator v))) []

/-- `alter(rule)`: replace the primary rule, keep transformer and extras. -/
def Validator.alter (v : Validator) (rule : Rule) : Validator :=
  match v with
  | Validator.mk _ t es => Validator.mk rule t es

/-- `nilable()`: same description and sanitizer, predicate short-circuiting
to true on `null`/`undefined` and otherwise delegating to the original
predicate; transformer and extra rules carried over. -/
def Validator.nilable (v : Validator) : Validator :=
  match v with
  | Validator.mk rule t es =>
    Validator.mk
      ⟨rule.desc,
        fun w =>
          match w with
          | Value.vNull => true
          | Value.vUndefined => true
          | _ => rule.vfunc w,
        rule.sfunc⟩ t es

/-- `extra(rule)`: append one extra rule, keep everything else. -/
def Validator.extra (v : Validator) (rule : Rule) : Validator :=
  match v with
  | Validator.mk r t es => Validator.mk r t (es ++ [rule])

/-! Stack balance: every stateful function of the engine returns the scope
stack it was given, on the success path and on the error path alike. -/

/-- `performRule` with no transform callback never touches the stack. -/
theorem performRule_none_stack (value : Value) (rule : Rule) (st : List Seg) :
    (performRule value rule none st).2 = st := by
  unfold performRule
  by_cases h : rule.vfunc (sanBefore rule value) <;> simp [h]

/-- `performRule` returns the stack unchanged whenever its transform
callback does. -/
theorem performRule_some_stack (value : Value) (rule : Rule)
    (f : Value → List Seg → Except ErrorInvalid Value × List Seg) (st : List Seg)
    (hf : ∀ w s, (f w s).2 = s) :
    (performRule value rule (some f) st).2 = st := by
  unfold performRule
  by_cases h : rule.vfunc (sanBefore rule value)
  · have hf1 := hf (sanBefore rule value) st
    cases hp : f (sanBefore rule value) st with
    | mk res st2 =>
      cases res <;> simp_all
  · simp [h]

/-- The extra-rule loop never touches the stack. -/
theorem runExtras_stack (extraRules : List Rule) (value : Value) (st : List Seg) :
    (runExtras extraRules value st).2 = st := by
  induction extraRules generalizing value st with
  | nil => simp [runExtras]
  | cons r rest ih =>
    unfold runExtras
    have h := performRule_none_stack value r st
    cases hp : performRule value r none st with
    | mk res st2 =>
      cases res <;> simp_all

mutual

/-- Stack balance for `Validator.run`. -/
theorem stackAux_run (v : Validator) (value : Value) (scope : Option String)
    (st : List Seg) : (runValidator v value scope st).2 = st := by
  cases v with
  | mk rule transformer extraRules =>
    cases scope with
    | some s =>
      have h := stackAux_tryBody rule transformer extraRules value (st ++ [Seg.str s])
      unfold runValidator
      simp [h]
    | none =>
      have h := stackAux_tryBody rule transformer extraRules value st
      unfold runValidator
      exact h
termination_by (sizeOf v, 1)
decreasing_by
  all_goals simp_wf
  all_goals apply Prod.Lex.left
  all_goals omega

/-- Stack balance for the try-block of `Validator.run`. -/
theorem stackAux_tryBody (rule : Rule) (transformer : Option Transformer)
    (extraRules : List Rule) (value : Value) (st : List Seg) :
    (runTryBody rule transformer extraRules value st).2 = st := by
  unfold runTryBody
  by_cases h : rule.vfunc (sanBefore rule value)
  · cases transformer with
    | none =>
      simp only [h, if_true]
      simp [runExtras_stack]
    | some t =>
      have ht := stackAux_processTransformer t (sanBefore rule value) st
      simp only [h, if_true]
      cases hp : processTransformer t (sanBefore rule value) st with
      | mk res st2 =>
        rw [hp] at ht
        cases res <;> simp_all [runExtras_stack]
  · simp [h]
termination_by (sizeOf transformer, 0)
decreasing_by
  all_goals simp_wf
  all_goals apply Prod.Lex.left
  all_goals omega

/-- Stack balance for the three transformers. -/
theorem stackAux_processTransformer (t : Transformer) (value : Value)
    (st : List Seg) : (processTransformer t value st).2 = st := by
  cases t with
  | objectT propRules =>
    unfold processTransformer
    by_cases h : instanceofObject value
    · cases hu : firstUnknown (ownKeys value) propRules with
      | some k => simp [h, hu]
      | none =>
        have hf := stackAux_processFields propRules value st
        cases hp : processFields propRules value st with
        | mk res st2 =>
          rw [hp] at hf
          cases res <;> simp_all
    · simp [h]
  | indexedObjectT childRule =>
    unfold processTransformer
    by_cases h : instanceofObject value
    · have hk := stackAux_processKeys (ownKeys value) childRule value st
      cases hp : processKeys (ownKeys value) childRule value st with
      | mk res st2 =>
        rw [hp] at hk
        cases res <;> simp_all
    · simp [h]
  | arrayT childRule =>
    unfold processTransformer
    cases value with
    | vArr es =>
      have he := stackAux_processElems childRule es 0 st
      cases hp : processElems childRule es 0 st with
      | mk res st2 =>
        rw [hp] at he
        cases res <;> simp_all
    | vNull => simp
    | vUndefined => simp
    | vBool b => simp
    | vNum n => simp
    | vStr s => simp
    | vObj fields => simp
termination_by (sizeOf t, 0)
decreasing_by
  all_goals simp_wf
  all_goals apply Prod.Lex.left
  all_goals omega

/-- Stack balance for `performPropRule`. -/
theorem stackAux_performPropRule (value : Value) (pr : PropertyRule)
    (st : List Seg) : (performPropRule value pr st).2 = st := by
  cases pr with
  | validator v =>
    have h := stackAux_run v value none st
    unfold performPropRule
    exact h
  | transform f => unfold performPropRule; rfl
  | rule r =>
    have h := performRule_none_stack value r st
    unfold performPropRule
    exact h
termination_by (sizeOf pr, 1)
decreasing_by
  all_goals simp_wf
  all_goals apply Prod.Lex.left
  all_goals omega

/-- Stack balance for the field pass of the object transformer. -/
theorem stackAux_processFields (propRules : List (String × PropertyRule))
    (value : Value) (st : List Seg) :
    (processFields propRules value st).2 = st := by
  cases propRules with
  | nil => unfold processFields; rfl
  | cons kv rest =>
    obtain ⟨key, pr⟩ := kv
    unfold processFields
    have h1 := stackAux_performPropRule (getProp value key) pr (st ++ [Seg.str key])
    cases hp : performPropRule (getProp value key) pr (st ++ [Seg.str key]) with
    | mk res st2 =>
      rw [hp] at h1
      cases res with
      | error e => simp_all
      | ok v1 =>
        have h2 := stackAux_processFields rest value st2.dropLast
        cases hq : processFields rest value st2.dropLast with
        | mk res2 st3 =>
          rw [hq] at h2
          cases res2 <;> simp_all
termination_by (sizeOf propRules, 0)
decreasing_by
  all_goals simp_wf
  all_goals apply Prod.Lex.left
  all_goals omega

/-- Stack balance for the key pass of the indexed-object transformer. -/
theorem stackAux_processKeys (keys : List String) (childRule : PropertyRule)
    (value : Value) (st : List Seg) :
    (processKeys keys childRule value st).2 = st := by
  cases keys with
  | nil => unfold processKeys; rfl
  | cons key rest =>
    unfold processKeys
    have h1 := stackAux_performPropRule (getProp value key) childRule (st ++ [Seg.str key])
    cases hp : performPropRule (getProp value key) childRule (st ++ [Seg.str key]) with
    | mk res st2 =>
      rw [hp] at h1
      cases res with
      | error e => simp_all
      | ok v1 =>
        have h2 := stackAux_processKeys rest childRule value st2.dropLast
        cases hq : processKeys rest childRule value st2.dropLast with
        | mk res2 st3 =>
          rw [hq] at h2
          cases res2 <;> simp_all
termination_by (sizeOf childRule, keys.length + 1)
decreasing_by
  all_goals simp_wf
  all_goals apply Prod.Lex.right
  all_goals omega

/-- Stack balance for the element pass of the array transformer. -/
theorem stackAux_processElems (childRule : PropertyRule) (es : List Value)
    (i : Nat) (st : List Seg) :
    (processElems childRule es i st).2 = st := by
  cases es with
  | nil => unfold processElems; rfl
  | cons e rest =>
    unfold processElems
    have h1 := stackAux_performPropRule e childRule (st ++ [Seg.idx i])
    cases hp : performPropRule e childRule (st ++ [Seg.idx i]) with
    | mk res st2 =>
      rw [hp] at h1
      cases res with
      | error e2 => simp_all
      | ok v1 =>
        have h2 := stackAux_processElems childRule rest (i + 1) st2.dropLast
        cases hq : processElems childRule rest (i + 1) st2.dropLast with
        | mk res2 st3 =>
          rw [hq] at h2
          cases res2 <;> simp_all
termination_by (sizeOf childRule, es.length + 1)
decreasing_by
  all_goals simp_wf
  all_goals apply Prod.Lex.right
  all_goals omega

end

/-! Helper notions and lemmas used by the claim theorems. -/

/-- Rendering of the first path segment, as the spec words it: unprefixed
for a string, bracketed for an index. -/
def renderFirstSeg : Seg → String
  | Seg.str s => s
  | Seg.idx n => "[" ++ toString n ++ "]"

/-- Rendering of every later path segment, as the spec words it: a leading
dot for a string, a bracketed index with no dot for a number. -/
def renderLaterSeg : Seg → String
  | Seg.str s => "." ++ s
  | Seg.idx n => "[" ++ toString n ++ "]"

/-- Concatenation of the later (position one onward) path segments. -/
def renderLaterSegs : List Seg → String
  | [] => ""
  | v :: rest => renderLaterSeg v ++ renderLaterSegs rest

/-- The path rendering exactly as the spec sentence describes it: the first
segment unprefixed, each subsequent string segment prefixed with a dot,
numeric segments bracketed regardless of position, all concatenated. -/
def renderScopeSpec : List Seg → String
  | [] => ""
  | v :: rest => renderFirstSeg v ++ renderLaterSegs rest

theorem renderSegsFrom_later (rest : List Seg) (i : Nat) :
    renderSegsFrom (i + 1) rest = renderLaterSegs rest := by
  induction rest generalizing i with
  | nil => rfl
  | cons v r ih =>
    simp only [renderSegsFrom, renderLaterSegs]
    rw [ih (i + 1)]
    cases v with
    | str s => simp [segString, renderLaterSeg]
    | idx n => simp [segString, renderLaterSeg]

/-- The source rendering agrees with the spec wording of the rendering. -/
theorem renderScope_eq_spec (st : List Seg) : renderScope st = renderScopeSpec st := by
  cases st with
  | nil => rfl
  | cons v rest =>
    simp only [renderScope, renderSegsFrom, renderScopeSpec]
    rw [show (0 : Nat) + 1 = 0 + 1 from rfl, renderSegsFrom_later rest 0]
    cases v with
    | str s => simp [segString, renderFirstSeg]
    | idx n => simp [segString, renderFirstSeg]

/-- The transform callback that `Validator.run` hands to `performRule`:
the transformer processing function, or the identity when the validator has
no transformer. -/
def transformCallback (transformer : Option Transformer) :
    Value → List Seg → Except ErrorInvalid Value × List Seg :=
  fun w s =>
    match transformer with
    | some t => processTransformer t w s
    | none => (Except.ok w, s)

/-- The try-block is exactly `performRule(value, rule, v => ...)` followed by
the extra-rule loop, as written in the source `run`. -/
theorem runTryBody_eq_performRule (rule : Rule) (transformer : Option Transformer)
    (extraRules : List Rule) (value : Value) (st : List Seg) :
    runTryBody rule transformer extraRules value st =
      match performRule value rule (some (transformCallback transformer)) st with
      | (Except.ok v1, st2) => runExtras extraRules v1 st2
      | (Except.error e, st2) => (Except.error e, st2) := by
  unfold runTryBody performRule transformCallback
  by_cases h : rule.vfunc (sanBefore rule value)
  · simp only [h, if_true]
    cases transformer with
    | none => simp
    | some t =>
      cases hp : processTransformer t (sanBefore rule value) st with
      | mk res st2 => cases res <;> simp [hp]
  · simp [h]

/-- A step of the extra-rule loop, phrased as a fold step over the pair of
current result and stack: an already-raised error passes through, otherwise
the next rule runs with no transform callback. -/
def extraStep (acc : Except ErrorInvalid Value × List Seg) (r : Rule) :
    Except ErrorInvalid Value × List Seg :=
  match acc with
  | (Except.ok v1, s) => performRule v1 r none s
  | (Except.error e, s) => (Except.error e, s)

theorem foldl_extraStep_error (extraRules : List Rule) (e : ErrorInvalid)
    (st : List Seg) :
    extraRules.foldl extraStep (Except.error e, st) = (Except.error e, st) := by
  induction extraRules with
  | nil => rfl
  | cons r rest ih => simp [List.foldl, extraStep, ih]

/-- The extra-rule loop is a left fold of `extraStep` over the rules in list
order. -/
theorem runExtras_eq_foldl (extraRules : List Rule) (value : Value) (st : List Seg) :
    runExtras extraRules value st = extraRules.foldl extraStep (Except.ok value, st) := by
  induction extraRules generalizing value st with
  | nil => rfl
  | cons r rest ih =>
    unfold runExtras
    cases hp : performRule value r none st with
    | mk res st2 =>
      cases res with
      | ok v1 => simp [List.foldl, extraStep, hp, ih]
      | error e => simp [List.foldl, extraStep, hp, foldl_extraStep_error]

/-- Every transformer passes a primitive (non-`Object`) value through
unchanged without touching the stack. -/
theorem processTransformer_primitive (t : Transformer) (value : Value)
    (st : List Seg) (h : instanceofObject value = false) :
    processTransformer t value st = (Except.ok value, st) := by
  cases t with
  | objectT propRules => simp [processTransformer, h]
  | indexedObjectT childRule => simp [processTransformer, h]
  | arrayT childRule =>
    cases value with
    | vArr es => simp [instanceofObject] at h
    | vNull => simp [processTransformer]
    | vUndefined => simp [processTransformer]
    | vBool b => simp [processTransformer]
    | vNum n => simp [processTransformer]
    | vStr s => simp [processTransformer]
    | vObj fields => simp [processTransformer]

/-- Whether `propRules[key]` misses depends only on the key list. -/
theorem lookupPropRule_isNone_iff (propRules : List (String × PropertyRule))
    (k : String) :
    (lookupPropRule propRules k).isNone = true ↔ k ∉ propRules.map Prod.fst := by
  induction propRules with
  | nil => simp [lookupPropRule]
  | cons kv rest ih =>
    obtain ⟨key, pr⟩ := kv
    by_cases h : key = k
    · subst h
      simp [lookupPropRule]
    · simp [lookupPropRule, h, ih, Ne.symm h]

/-- The first unknown input key depends only on the declared key list, not
on the rules bound to the keys. -/
theorem firstUnknown_congr (keys : List String)
    (propRules₁ propRules₂ : List (String × PropertyRule))
    (h : propRules₁.map Prod.fst = propRules₂.map Prod.fst) :
    firstUnknown keys propRules₁ = firstUnknown keys propRules₂ := by
  induction keys with
  | nil => rfl
  | cons k rest ih =>
    have h1 : (lookupPropRule propRules₁ k).isNone = (lookupPropRule propRules₂ k).isNone := by
      by_cases hk : k ∈ propRules₂.map Prod.fst
      · have e1 : ¬ (lookupPropRule propRules₁ k).isNone = true := by
          rw [lookupPropRule_isNone_iff, h]; simpa using hk
        have e2 : ¬ (lookupPropRule propRules₂ k).isNone = true := by
          rw [lookupPropRule_isNone_iff]; simpa using hk
        simp only [Bool.not_eq_true] at e1 e2
        rw [e1, e2]
      · have e1 : (lookupPropRule propRules₁ k).isNone = true := by
          rw [lookupPropRule_isNone_iff, h]; exact hk
        have e2 : (lookupPropRule propRules₂ k).isNone = true := by
          rw [lookupPropRule_isNone_iff]; exact hk
        rw [e1, e2]
    unfold firstUnknown
    rw [h1]
    by_cases hn : (lookupPropRule propRules₂ k).isNone = true
    · simp [hn]
    · simp only [Bool.not_eq_true] at hn
      simp [hn, ih]

/-! Single-step equations for the interpreter, used to evaluate concrete
runs one call at a time. -/

theorem runValidator_none_eq (rule : Rule) (transformer : Option Transformer)
    (extraRules : List Rule) (value : Value) (st : List Seg) :
    runValidator (Validator.mk rule transformer extraRules) value none st =
      runTryBody rule transformer extraRules value st := by
  unfold runValidator
  rfl

theorem runValidator_some_error (rule : Rule) (transformer : Option Transformer)
    (extraRules : List Rule) (value : Value) (s : String) (st : List Seg)
    (e : ErrorInvalid) (st2 : List Seg)
    (h : runTryBody rule transformer extraRules value (st ++ [Seg.str s]) = (Except.error e, st2)) :
    runValidator (Validator.mk rule transformer extraRules) value (some s) st =
      (Except.error e, st2.dropLast) := by
  unfold runValidator
  show ((runTryBody rule transformer extraRules value (st ++ [Seg.str s])).1,
      (runTryBody rule transformer extraRules value (st ++ [Seg.str s])).2.dropLast) = _
  rw [h]

theorem runTryBody_pred_fails (rule : Rule) (transformer : Option Transformer)
    (extraRules : List Rule) (value : Value) (st : List Seg)
    (hpred : rule.vfunc (sanBefore rule value) = false) :
    runTryBody rule transformer extraRules value st =
      (Except.error (raiseError st rule.desc none), st) := by
  unfold runTryBody
  simp [hpred]

theorem runTryBody_transform_error (rule : Rule) (transformer : Option Transformer)
    (extraRules : List Rule) (value : Value) (st : List Seg)
    (e : ErrorInvalid) (st2 : List Seg)
    (hpred : rule.vfunc (sanBefore rule value) = true)
    (h : transformCallback transformer (sanBefore rule value) st = (Except.error e, st2)) :
    runTryBody rule transformer extraRules value st = (Except.error e, st2) := by
  unfold runTryBody
  cases transformer with
  | none =>
    replace h : ((Except.ok (sanBefore rule value), st) :
        Except ErrorInvalid Value × List Seg) = (Except.error e, st2) := h
    simp at h
  | some t =>
    replace h : processTransformer t (sanBefore rule value) st = (Except.error e, st2) := h
    simp only [hpred, if_true]
    rw [h]

theorem performPropRule_validator_eq (w : Validator) (value : Value) (st : List Seg) :
    performPropRule value (PropertyRule.validator w) st = runValidator w value none st := by
  unfold performPropRule
  rfl

theorem processFields_single_error (key : String) (pr : PropertyRule)
    (value : Value) (st : List Seg) (e : ErrorInvalid) (st2 : List Seg)
    (h : performPropRule (getProp value key) pr (st ++ [Seg.str key]) = (Except.error e, st2)) :
    processFields [(key, pr)] value st = (Except.error e, st2.dropLast) := by
  unfold processFields
  rw [h]

theorem processTransformer_objectT_error (propRules : List (String × PropertyRule))
    (value : Value) (st : List Seg) (e : ErrorInvalid) (st2 : List Seg)
    (hobj : instanceofObject value = true)
    (hunk : firstUnknown (ownKeys value) propRules = none)
    (h : processFields propRules value st = (Except.error e, st2)) :
    processTransformer (Transformer.objectT propRules) value st = (Except.error e, st2) := by
  unfold processTransformer
  rw [hobj, hunk, h]
  simp

/-! Concrete rules used by the example parts of the claims. -/

/-- The rule `{description: "positive", predicate: v => v > 0}` of the spec
example, on numeric values. -/
def positiveRule : Rule :=
  ⟨"positive", fun w => match w with | Value.vNum n => decide (0 < n) | _ => false, none⟩

/-- A rule accepting exactly strings, `typeof v === "string"`. -/
def stringRule : Rule :=
  ⟨"string", fun w => match w with | Value.vStr _ => true | _ => false, none⟩

/-- A type-checking rule accepting exactly numbers. -/
def numberRule : Rule :=
  ⟨"number", fun w => match w with | Value.vNum _ => true | _ => false, none⟩

/-- A range rule on numbers, used as an extra rule after `numberRule`. -/
def nonnegativeRule : Rule :=
  ⟨"nonnegative", fun w => match w with | Value.vNum n => decide (0 ≤ n) | _ => false, none⟩

/-- A rule rejecting null and accepting everything else. -/
def notNullRule : Rule :=
  ⟨"not null", fun w => match w with | Value.vNull => false | _ => true, none⟩

/-! The claim theorems. -/

/-- C1: for every Validator, input value and optional scope, the scope-stack
contents (hence its length) after `Validator.run` equal the contents before
the call, on the normal-return path and on the error path alike: every push
of a scope label, property key or array index is paired with a pop on every
exit path of the interpreter. -/
theorem run_scopeStack_balanced (v : Validator) (value : Value)
    (scope : Option String) (st : List Seg) :
    (runValidator v value scope st).2 = st :=
  stackAux_run v value scope st

/-- C3: `performRule` runs its steps in fixed order — before-sanitizer
first, then the predicate on the sanitized value (raising an error that
carries the rule description under the default prefix `requires` when it is
false, in which case the transform callback is never consulted), then the
supplied transform callback on the sanitized value, then the after-sanitizer
on the already-transformed value, which is returned. -/
theorem performRule_step_order (value : Value) (rule : Rule) (st : List Seg)
    (f : Value → List Seg → Except ErrorInvalid Value × List Seg) :
    (performRule value rule (some f) st =
      if rule.vfunc (sanBefore rule value) then
        match f (sanBefore rule value) st with
        | (Except.ok v2, st2) => (Except.ok (sanAfter rule v2), st2)
        | (Except.error e, st2) => (Except.error e, st2)
      else (Except.error ⟨renderScope st ++ ": " ++ "requires" ++ " " ++ rule.desc⟩, st))
    ∧ performRule value rule none st =
      (if rule.vfunc (sanBefore rule value) then
        (Except.ok (sanAfter rule (sanBefore rule value)), st)
      else (Except.error ⟨renderScope st ++ ": " ++ "requires" ++ " " ++ rule.desc⟩, st)) := by
  constructor
  · unfold performRule
    by_cases h : rule.vfunc (sanBefore rule value)
    · simp [h]
    · simp [h, raiseError, orRequires]
  · unfold performRule
    by_cases h : rule.vfunc (sanBefore rule value)
    · simp [h]
    · simp [h, raiseError, orRequires]

/-- C6, counterexample: the claim quantifies over every prefix, but an
explicitly supplied empty prefix does not appear in the message — the
JavaScript falsy-or defaulting replaces it with `requires`, so the message
is not of the claimed shape `<path>: <prefix> <description>` there. -/
theorem raiseError_empty_prefix_counterexample :
    raiseError [] "d" (some "") = ⟨": requires d"⟩ ∧ ": requires d" ≠ ":  d" := by
  constructor
  · rfl
  · decide

/-- C6, amended: `raiseError` renders the path with the first segment
unprefixed, later string segments dot-prefixed and numeric segments
bracketed regardless of position, and throws a single error with message
`<path>: <prefix> <description>`, where the prefix falls back to `requires`
when it is absent or empty (falsy). -/
theorem raiseError_message_shape (st : List Seg) (desc : String)
    (pfx : Option String) :
    raiseError st desc pfx =
      ⟨renderScopeSpec st ++ ": " ++ orRequires pfx ++ " " ++ desc⟩ := by
  unfold raiseError
  rw [renderScope_eq_spec]

/-- C2, counterexample: running `Validator.object({a: numberRule})` (where
`numberRule` accepts 1) on `{a: 1, b: 2}` raises `ErrorInvalid` containing
`unknown property`, but the rendered path portion of the message is empty —
the unknown key is reported in the quoted description, not as the path, so
the message is not the claimed `b: unknown property ...`. -/
theorem object_unknown_key_counterexample :
    numberRule.vfunc (Value.vNum 1) = true
    ∧ runValidator (Validator.object [("a", PropertyRule.rule numberRule)])
        (Value.vObj [("a", Value.vNum 1), ("b", Value.vNum 2)]) none [] =
        (Except.error ⟨": unknown property " ++ quoted "b"⟩, [])
    ∧ ": unknown property " ++ quoted "b"
        ≠ "b" ++ ": " ++ "unknown property" ++ " " ++ quoted "b" := by
  refine ⟨rfl, ?_, by decide⟩
  simp [runValidator, runTryBody, processTransformer, firstUnknown, lookupPropRule,
    ownKeys, sanBefore, sanAfter, raiseError, renderScope, renderSegsFrom, orRequires,
    instanceofObject, Validator.object, quoted]

/-- C2, amended: running `Validator.object({a: numberRule})` on
`{a: 1, b: 2}` raises an `ErrorInvalid` whose message contains
`unknown property`; the rendered path is empty (nothing is pushed for the
offending key) and the key appears single-quoted inside the description, so
the whole message is `: unknown property 'b'`. -/
theorem object_unknown_key_amended :
    runValidator (Validator.object [("a", PropertyRule.rule numberRule)])
        (Value.vObj [("a", Value.vNum 1), ("b", Value.vNum 2)]) none [] =
      (Except.error ⟨": unknown property " ++ quoted "b"⟩, [])
    ∧ ∃ pre post, ": unknown property " ++ quoted "b"
        = pre ++ ("unknown property" ++ post) := by
  constructor
  · simp [runValidator, runTryBody, processTransformer, firstUnknown, lookupPropRule,
      ownKeys, sanBefore, sanAfter, raiseError, renderScope, renderSegsFrom, orRequires,
      instanceofObject, Validator.object, quoted]
  · exact ⟨": ", " " ++ quoted "b", by decide⟩

/-- C4: `nilable()` yields a validator whose primary predicate is true on
null and undefined whatever the wrapped predicate does, agrees with the
wrapped predicate on every other value, and whose transformer and extra
rules are those of the wrapped validator; concretely, the nilable positive
validator returns null unchanged on null and raises with description
`positive` on -1. -/
theorem nilable_spec (v : Validator) :
    (v.nilable).rule.vfunc Value.vNull = true
    ∧ (v.nilable).rule.vfunc Value.vUndefined = true
    ∧ (∀ x : Value, x ≠ Value.vNull → x ≠ Value.vUndefined →
        (v.nilable).rule.vfunc x = v.rule.vfunc x)
    ∧ (v.nilable).transformer = v.transformer
    ∧ (v.nilable).extraRules = v.extraRules
    ∧ runValidator ((Validator.regular positiveRule).nilable) Value.vNull none []
        = (Except.ok Value.vNull, [])
    ∧ runValidator ((Validator.regular positiveRule).nilable) (Value.vNum (-1)) none []
        = (Except.error ⟨": requires positive"⟩, []) := by
  obtain ⟨rule, transformer, extraRules⟩ := v
  refine ⟨rfl, rfl, ?_, rfl, rfl, ?_, ?_⟩
  · intro x h1 h2
    cases x <;> simp_all [Validator.nilable, Validator.rule]
  · simp [runValidator, runTryBody, Validator.nilable, Validator.regular,
      sanBefore, sanAfter, runExtras, positiveRule]
  · simp [runValidator, runTryBody, Validator.nilable, Validator.regular,
      sanBefore, sanAfter, runExtras, positiveRule, raiseError, renderScope,
      renderSegsFrom, orRequires]

/-- C4, witness: on a value that is neither null nor undefined the nilable
predicate coincides with the wrapped predicate. -/
theorem nilable_spec_witness :
    ((Validator.regular stringRule).nilable).rule.vfunc (Value.vNum 7)
      = (Validator.regular stringRule).rule.vfunc (Value.vNum 7) :=
  (nilable_spec (Validator.regular stringRule)).2.2.1 (Value.vNum 7)
    (by simp) (by simp)

/-- C5: extra rules run strictly after the primary rule and its transform,
as a left fold over the extra-rule list in the order the rules were added
(`extra` appends at the end), each with no transform callback; hence with a
number-type primary rule and a nonnegative extra rule, the input -5 passes
the type check and raises with the range-rule description `nonnegative`,
not with the type-rule description. -/
theorem extra_rules_run_after_primary (rule : Rule)
    (transformer : Option Transformer) (extraRules : List Rule) (value : Value)
    (st : List Seg) (v₂ : Validator) (r₂ : Rule) :
    runValidator (Validator.mk rule transformer extraRules) value none st =
      (match performRule value rule (some (transformCallback transformer)) st with
       | (Except.ok v1, st2) => extraRules.foldl extraStep (Except.ok v1, st2)
       | (Except.error e, st2) => (Except.error e, st2))
    ∧ (v₂.extra r₂).extraRules = v₂.extraRules ++ [r₂]
    ∧ numberRule.vfunc (Value.vNum (-5)) = true
    ∧ nonnegativeRule.vfunc (Value.vNum (-5)) = false
    ∧ runValidator ((Validator.regular numberRule).extra nonnegativeRule)
        (Value.vNum (-5)) none []
        = (Except.error ⟨": requires nonnegative"⟩, []) := by
  refine ⟨?_, ?_, rfl, by decide, ?_⟩
  · unfold runValidator
    rw [runTryBody_eq_performRule]
    cases hp : performRule value rule (some (transformCallback transformer)) st with
    | mk res st2 => cases res <;> simp [runExtras_eq_foldl]
  · obtain ⟨r, t, es⟩ := v₂
    simp [Validator.extra, Validator.extraRules]
  · simp [runValidator, runTryBody, Validator.extra, Validator.regular, sanBefore,
      sanAfter, runExtras, performRule, numberRule, nonnegativeRule, raiseError,
      renderScope, renderSegsFrom, orRequires]

/-- C7: whenever some key of an object input is missing from the declared
rule map, the strict object transformer raises the `unknown property` error
for the first such key, with nothing pushed on the stack and before any
declared property rule runs — the outcome is the same for any rule map with
the same key list, whatever rules it binds. -/
theorem object_strict_unknown_first (propRules : List (String × PropertyRule))
    (fields : List (String × Value)) (st : List Seg) (k : String)
    (h : firstUnknown (fields.map Prod.fst) propRules = some k) :
    processTransformer (Transformer.objectT propRules) (Value.vObj fields) st =
      (Except.error ⟨renderScopeSpec st ++ ": " ++ "unknown property" ++ " " ++ quoted k⟩, st)
    ∧ ∀ propRules₂ : List (String × PropertyRule),
        propRules₂.map Prod.fst = propRules.map Prod.fst →
        processTransformer (Transformer.objectT propRules₂) (Value.vObj fields) st =
          processTransformer (Transformer.objectT propRules) (Value.vObj fields) st := by
  constructor
  · unfold processTransformer
    simp only [instanceofObject, ownKeys, if_true]
    rw [h]
    simp [raiseError, orRequires, renderScope_eq_spec]
  · intro propRules₂ heq
    have h₂ : firstUnknown (fields.map Prod.fst) propRules₂ = some k := by
      rw [firstUnknown_congr (fields.map Prod.fst) propRules₂ propRules heq, h]
    unfold processTransformer
    simp only [instanceofObject, ownKeys, if_true]
    rw [h, h₂]

/-- C7, witness: concrete unknown key `c` next to the declared key `a`. -/
theorem object_strict_unknown_first_witness :
    processTransformer (Transformer.objectT [("a", PropertyRule.rule numberRule)])
      (Value.vObj [("a", Value.vNum 1), ("c", Value.vNum 2)]) [] =
      (Except.error ⟨": unknown property " ++ quoted "c"⟩, []) := by
  have h := (object_strict_unknown_first [("a", PropertyRule.rule numberRule)]
    [("a", Value.vNum 1), ("c", Value.vNum 2)] [] "c" rfl).1
  simpa [renderScopeSpec] using h

/-- C8: the nested object example raises with the fully qualified path
`root.user.name` — the scope label and each nested property key are pushed
in order before the failing leaf predicate reports. -/
theorem nested_object_path_example :
    runValidator
      (Validator.object [("user", PropertyRule.validator
        (Validator.object [("name", PropertyRule.validator
          (Validator.regular stringRule))]))])
      (Value.vObj [("user", Value.vObj [("name", Value.vNum 123)])])
      (some "root") [] =
      (Except.error ⟨"root.user.name: requires string"⟩, []) := by
  have h1 : runValidator (Validator.regular stringRule) (Value.vNum 123) none
      [Seg.str "root", Seg.str "user", Seg.str "name"] =
      (Except.error ⟨"root.user.name: requires string"⟩,
        [Seg.str "root", Seg.str "user", Seg.str "name"]) := by
    show runValidator (Validator.mk stringRule none []) (Value.vNum 123) none _ = _
    rw [runValidator_none_eq, runTryBody_pred_fails stringRule none [] (Value.vNum 123) _ rfl]
    rfl
  have h2 : processFields [("name", PropertyRule.validator (Validator.regular stringRule))]
      (Value.vObj [("name", Value.vNum 123)]) [Seg.str "root", Seg.str "user"] =
      (Except.error ⟨"root.user.name: requires string"⟩, [Seg.str "root", Seg.str "user"]) := by
    exact processFields_single_error "name"
      (PropertyRule.validator (Validator.regular stringRule))
      (Value.vObj [("name", Value.vNum 123)]) [Seg.str "root", Seg.str "user"]
      ⟨"root.user.name: requires string"⟩
      [Seg.str "root", Seg.str "user", Seg.str "name"]
      (by rw [performPropRule_validator_eq]; exact h1)
  have h3 : runValidator
      (Validator.object [("name", PropertyRule.validator (Validator.regular stringRule))])
      (Value.vObj [("name", Value.vNum 123)]) none [Seg.str "root", Seg.str "user"] =
      (Except.error ⟨"root.user.name: requires string"⟩, [Seg.str "root", Seg.str "user"]) := by
    show runValidator (Validator.mk _ _ _) _ none _ = _
    rw [runValidator_none_eq]
    refine runTryBody_transform_error _ _ _ _ _ _ _ rfl ?_
    show processTransformer _ _ _ = _
    exact processTransformer_objectT_error _ _ _ _ _ rfl rfl h2
  have h4 : processFields
      [("user", PropertyRule.validator (Validator.object [("name",
        PropertyRule.validator (Validator.regular stringRule))]))]
      (Value.vObj [("user", Value.vObj [("name", Value.vNum 123)])]) [Seg.str "root"] =
      (Except.error ⟨"root.user.name: requires string"⟩, [Seg.str "root"]) := by
    exact processFields_single_error "user"
      (PropertyRule.validator (Validator.object [("name",
        PropertyRule.validator (Validator.regular stringRule))]))
      (Value.vObj [("user", Value.vObj [("name", Value.vNum 123)])]) [Seg.str "root"]
      ⟨"root.user.name: requires string"⟩
      [Seg.str "root", Seg.str "user"]
      (by rw [performPropRule_validator_eq]; exact h3)
  show runValidator (Validator.mk _ _ _) _ (some "root") [] = _
  exact runValidator_some_error _ _ _ _ _ _
    ⟨"root.user.name: requires string"⟩ [Seg.str "root"]
    (runTryBody_transform_error _ _ _ _ _ _ _ rfl
      (processTransformer_objectT_error _ _ _ _ _ rfl rfl h4))

/-- C10: `nilable()` short-circuits only the primary predicate — with an
extra rule `r` carried into `v.extra(r).nilable()`, running on null still
evaluates `r` after the primary phase (every transformer passes null
through), and raises with the description of `r` when its predicate rejects
null. -/
theorem nilable_extra_rejects_null (v : Validator) (r : Rule) (st : List Seg)
    (hsan : v.rule.sfunc = none) (hrsan : r.sfunc = none)
    (hextras : v.extraRules = []) (hfail : r.vfunc Value.vNull = false) :
    runValidator ((v.extra r).nilable) Value.vNull none st =
      (Except.error ⟨renderScopeSpec st ++ ": " ++ "requires" ++ " " ++ r.desc⟩, st) := by
  obtain ⟨rule, transformer, extraRules⟩ := v
  simp only [Validator.rule, Validator.extraRules] at hsan hextras
  subst hextras
  simp only [Validator.extra, Validator.nilable, List.nil_append]
  unfold runValidator runTryBody
  simp only [sanBefore, sanAfter, hsan]
  cases transformer with
  | none =>
    simp [runExtras, performRule, sanBefore, sanAfter, hrsan, hfail, raiseError,
      orRequires, renderScope_eq_spec]
  | some t =>
    simp [processTransformer_primitive, instanceofObject, runExtras, performRule,
      sanBefore, sanAfter, hrsan, hfail, raiseError, orRequires, renderScope_eq_spec]

/-- C10, witness: the nilable positive validator with a not-null extra rule
rejects null with the extra-rule description. -/
theorem nilable_extra_rejects_null_witness :
    runValidator (((Validator.regular positiveRule).extra notNullRule).nilable)
      Value.vNull none [] = (Except.error ⟨": requires not null"⟩, []) := by
  have h := nilable_extra_rejects_null (Validator.regular positiveRule) notNullRule []
    rfl rfl rfl rfl
  simpa [renderScopeSpec] using h

end ValidatorTs
